import Mathlib

/-!
Verification development for the trmg record-transformation pipeline.

The Go program reads generic records (maps from string keys to dynamically
typed values), reshapes each record through a declarative mapping and rule
configuration, and re-emits the results through a family of output
formatters.  The definitions below are a shallow embedding of the Go
source: Go maps of type map[string]any are modelled as association lists
with last-write-wins updates, the dynamic value type any is modelled by the
inductive type Value, and the external regular-expression engine
(regexp.Compile / MatchString / FindStringSubmatch) is kept abstract as a
parameter, exactly at the boundary where the source calls it.
-/

/-- The dynamic value type: the model of Go `any` as it occurs in decoded
records (string, number, boolean, nested map, slice, or nil). Go `nil` and
JSON/YAML null are both `Value.null`. -/
inductive Value where
  | null : Value
  | str : String → Value
  | num : Int → Value
  | bool : Bool → Value
  | obj : List (String × Value) → Value
  | arr : List Value → Value

/-- The model of Go `map[string]any`: an association list. Maps produced by
the program are built by `setKey` starting from `[]`, hence have distinct
keys; Go map iteration order is arbitrary, and no modelled operation is
sensitive to the order for such maps. -/
abbrev RecordMap := List (String × Value)

/-- Key lookup with presence information: the model of `v, ok := m[k]`. -/
def lookupKey : RecordMap → String → Option Value
  | [], _ => none
  | (k0, v0) :: rest, k => if k0 == k then some v0 else lookupKey rest k

/-- Key lookup as Go `m[k]` of a `map[string]any`: a missing key yields the
zero value `nil`. -/
def lookupAny (m : RecordMap) (k : String) : Value :=
  (lookupKey m k).getD Value.null

/-- The model of the Go map write `m[k] = v`: overwrite the binding if the
key is present, otherwise add it. -/
def setKey : RecordMap → String → Value → RecordMap
  | [], k, v => [(k, v)]
  | (k0, v0) :: rest, k, v =>
      if k0 == k then (k, v) :: rest else (k0, v0) :: setKey rest k v

/-- The model of `maps.Copy(dst, src)`: every binding of `src` is written
into `dst`, overwriting colliding keys. -/
def mapsCopy (dst src : RecordMap) : RecordMap :=
  src.foldl (fun d p => setKey d p.1 p.2) dst

/-- Splitting a character list at every `.`, the model of
`strings.Split(path, ".")`: the empty string splits to `[[]]`, i.e. the
single empty segment, exactly as in Go. -/
def splitDotAux : List Char → List (List Char)
  | [] => [[]]
  | c :: rest =>
    match splitDotAux rest with
    | [] => [[]]
    | seg :: segs => if c == '.' then [] :: seg :: segs else (c :: seg) :: segs

/-- `strings.Split(path, ".")` on strings. -/
def splitDot (path : String) : List String :=
  (splitDotAux path.data).map String.mk

/-- The descent loop of `getValueByPath`: walk the remaining path segments,
looking each up in the current value as long as it is a mapping; as soon as
the current value is not a mapping while segments remain, the Go code
returns `nil`. -/
def descend : Value → List String → Value
  | current, [] => current
  | .obj m, part :: rest => descend (lookupAny m part) rest
  | _, _ :: _ => .null

/-- `getValueByPath` from the source: split the dot-separated path and
descend through nested mappings, with `nil` (here `Value.null`) as the
absent result. -/
def getValueByPath (record : RecordMap) (path : String) : Value :=
  descend (.obj record) (splitDot path)

/-- True exactly on `Value.null`. -/
def isNullV : Value → Bool
  | .null => true
  | _ => false

/-- Specification-style absence predicate for the amended reading of the
path resolver: descending the given segments yields null exactly when an
intermediate value is not a mapping while segments remain, or the value
reached at the end is null (which covers missing keys, whose lookup is
null). -/
def pathAbsent : Value → List String → Bool
  | v, [] => isNullV v
  | .obj m, p :: rest => pathAbsent (lookupAny m p) rest
  | _, _ :: _ => true

/-- The model of a compiled `regexp.Regexp`: only the two methods the
program calls. `findStringSubmatch` returns `[]` for no match, otherwise
the whole match followed by the capture-group texts (empty string for a
group that did not participate), exactly the shape of Go
`FindStringSubmatch`. -/
structure CompiledRe where
  matchString : String → Bool
  findStringSubmatch : String → List String

/-- The abstract regular-expression engine: `compile` is `regexp.Compile`,
with `none` for an invalid pattern. -/
structure RegexEngine where
  compile : String → Option CompiledRe

/-- `AndCondition` from config.go: one entry of a rule's `and` list. -/
structure AndCondition where
  field : String
  eq : Option String
  matchesRe : Option String

/-- `AndCondition.Check` from config.go: the field must resolve to a
string; `eq` is tested when present, otherwise `matches` is tested when
present, otherwise the condition is false. -/
def AndCondition.check (re : RegexEngine) (ac : AndCondition) (record : RecordMap) : Bool :=
  match getValueByPath record ac.field with
  | .str strVal =>
    match ac.eq with
    | some e => strVal == e
    | none =>
      match ac.matchesRe with
      | some pat =>
        match re.compile pat with
        | some r => r.matchString strVal
        | none => false
      | none => false
  | _ => false

/-- `SpecificOutputRule` from config.go. The `output` list models the Go
`[]OutputMap` of one-key maps; each inner list is one such map. -/
structure SpecificOutputRule where
  field : String
  eq : Option String
  matchesRe : Option String
  and : List AndCondition
  output : List (List (String × Value))

/-- `SpecificOutputRule.Check` from config.go: the field must resolve to a
string; when present, `eq` AND `matches` are both tested (each failing test
returns false); then every `and` condition must hold. -/
def SpecificOutputRule.check (re : RegexEngine) (r : SpecificOutputRule)
    (record : RecordMap) : Bool :=
  match getValueByPath record r.field with
  | .str strVal =>
    (match r.eq with
     | some e => strVal == e
     | none => true) &&
    (match r.matchesRe with
     | some pat =>
       match re.compile pat with
       | some cre => cre.matchString strVal
       | none => false
     | none => true) &&
    r.and.all (fun ac => ac.check re record)
  | _ => false

/-- Character test for the leading-occurrence check of string replacement:
true when the first list is an initial run of the second. -/
def leadsWith : List Char → List Char → Bool
  | [], _ => true
  | _ :: _, [] => false
  | p :: ps, c :: cs => p == c && leadsWith ps cs

/-- The scanning loop of Go `strings.ReplaceAll(s, pat, repl)` on character
lists: replace every leftmost non-overlapping occurrence of `pat` by
`repl`; with the empty pattern, `repl` is inserted before every character
and at the end, as in Go. The extra fuel argument only bounds the number of
steps; every call site passes the length of the scanned list, which the
loop never exhausts, so the fuel-zero line is unreachable there. -/
def replChars (pat repl : List Char) : Nat → List Char → List Char
  | _, [] => if pat == [] then repl else []
  | 0, s => s
  | fuel + 1, c :: rest =>
    if pat == [] then repl ++ c :: replChars pat repl fuel rest
    else if leadsWith pat (c :: rest) then
      repl ++ replChars pat repl fuel (rest.drop (pat.length - 1))
    else c :: replChars pat repl fuel rest

/-- Go `strings.ReplaceAll(s, pat, repl)`. -/
def replaceAll (s pat repl : String) : String :=
  String.mk (replChars pat.data repl.data s.data.length s.data)

/-- The substitution loop of `applyMapping`: for each capture group, in
increasing index order, replace every occurrence of the placeholder
`$1`, `$2`, ... (the Go `fmt.Sprintf` of the one-based index) by the group
text. `groups` is `matches[1:]`, the capture groups without the whole
match. -/
def substGroups (groups : List String) (template : String) : String :=
  groups.enum.foldl
    (fun result p => replaceAll result ("$" ++ toString (p.1 + 1)) p.2) template

/-- `hasKeys(v, "src", "regex", "value")` from the source, at its only call
site: presence of the three keys, regardless of their value types. -/
def hasKeys3 (m : List (String × Value)) : Bool :=
  (lookupKey m "src").isSome && (lookupKey m "regex").isSome &&
    (lookupKey m "value").isSome

/-- `strval` from the source: the value at the key when it is a string,
otherwise the empty string. -/
def strval (om : List (String × Value)) (key : String) : String :=
  match lookupAny om key with
  | .str s => s
  | _ => ""

mutual

/-- `applyMapping` from the source. A string spec copies the value at the
path. A mapping spec carrying all three of `src`, `regex` and `value` is
the regex-extract case: an invalid pattern, a non-string source value, a
failed match, and an empty `value` template each write nothing; otherwise
the template with substituted groups is written. Any other mapping spec is
the nested case: a fresh record is built by applying every entry and is
written under the name. Specs of any other type write nothing (the Go type
switch has no matching case). The Go code iterates the nested map in
arbitrary order; the entries write pairwise distinct keys of the fresh
record, so list order is one admissible order. -/
def applyMapping (re : RegexEngine) (name : String) (inRec out : RecordMap)
    (outSpec : Value) : RecordMap :=
  match outSpec with
  | .str v => setKey out name (getValueByPath inRec v)
  | .obj v =>
    if hasKeys3 v then
      let src := strval v "src"
      let regex := strval v "regex"
      match re.compile regex with
      | none => out
      | some cre =>
        match getValueByPath inRec src with
        | .str srcVal =>
          let matchesList := cre.findStringSubmatch srcVal
          if matchesList.length == 0 then out
          else
            let val := strval v "value"
            if val != "" then
              setKey out name (Value.str (substGroups (matchesList.drop 1) val))
            else out
        | _ => out
    else
      setKey out name (Value.obj (applyEntries re inRec v []))
  | _ => out

/-- The nested-case loop of `applyMapping`: apply every sub-spec of the
mapping into the fresh record. -/
def applyEntries (re : RegexEngine) (inRec : RecordMap)
    (entries : List (String × Value)) (newout : RecordMap) : RecordMap :=
  match entries with
  | [] => newout
  | e :: rest => applyEntries re inRec rest (applyMapping re e.1 inRec newout e.2)

end

/-- `applyFieldMappings` from the source: apply each field mapping in
declaration order into a fresh output record. A field mapping is the pair
of the output key and its spec. -/
def applyFieldMappings (re : RegexEngine) (record : RecordMap)
    (mappings : List (String × Value)) : RecordMap :=
  mappings.foldl (fun output fm => applyMapping re fm.1 record output fm.2) []

/-- `convertFieldMappings` from config.go: flatten the list of one-key maps
into the list of key/spec pairs, in declaration order. -/
def convertFieldMappings (maps : List (List (String × Value))) : List (String × Value) :=
  maps.flatten

/-- The configuration fields the transformation engine reads. The CLI
fields (input and output format, buffering) are carried outside the parts
modelled here. -/
structure Config where
  matchRule : String
  commonOutput : List (List (String × Value))
  specificOutputs : List SpecificOutputRule

/-- The rule-scanning loop of `processInput`: find the first matching rule
in declaration order, apply its output mappings and merge them into the
accumulated output with `maps.Copy`, and stop; the returned flag is
`matchedSpecific`. -/
def applySpecific (re : RegexEngine) (record : RecordMap) :
    List SpecificOutputRule → RecordMap → RecordMap × Bool
  | [], output => (output, false)
  | rule :: rest, output =>
    if rule.check re record then
      (mapsCopy output (applyFieldMappings re record (convertFieldMappings rule.output)), true)
    else applySpecific re record rest output

/-- `processInput` from the source: build the common output, merge in the
first matching specific rule, drop the record when nothing matched under
the drop-no-match policy, pass the original record through verbatim when
the built output has no keys, and return the built output otherwise. `none`
models the Go `nil` return, which produces nothing downstream. -/
def processInput (re : RegexEngine) (record : RecordMap) (config : Config) :
    Option RecordMap :=
  let output := applyFieldMappings re record (convertFieldMappings config.commonOutput)
  let res := applySpecific re record config.specificOutputs output
  if config.matchRule == "drop-no-match" && !res.2 then none
  else if res.1.length == 0 then some record
  else some res.1

/-- The record built by the mapping stages of `processInput`, before the
drop and pass-through decisions. -/
def buildOutput (re : RegexEngine) (record : RecordMap) (config : Config) : RecordMap :=
  (applySpecific re record config.specificOutputs
    (applyFieldMappings re record (convertFieldMappings config.commonOutput))).1

/-- `computeHeaderOrder` from the source: the top-level keys of the common
output in declaration order, then the new top-level keys of every rule
output in declaration order, duplicates dropped at first occurrence. -/
def computeHeaderOrder (config : Config) : List String :=
  let step := fun (headers : List String) (k : String) =>
    if headers.contains k then headers else headers ++ [k]
  let fromCommon := (convertFieldMappings config.commonOutput).foldl
    (fun hs p => step hs p.1) []
  config.specificOutputs.foldl
    (fun hs rule => (convertFieldMappings rule.output).foldl (fun h p => step h p.1) hs)
    fromCommon

/-- The state of `JSONFormatter` besides the writer: whether any record has
been written yet, and the singleton flag the formatter was constructed
with. -/
structure JSONFormatter where
  isFirst : Bool
  isSingletonInput : Bool

/-- `NewJSONFormatter`. -/
def JSONFormatter.new (isSingletonInput : Bool) : JSONFormatter :=
  ⟨true, isSingletonInput⟩

/-- `JSONFormatter.WriteHeader`: nothing for singleton input, an opening
bracket line otherwise. -/
def JSONFormatter.writeHeader (f : JSONFormatter) : String :=
  if f.isSingletonInput then "" else "[\n"

/-- `JSONFormatter.WriteRecord`: the bytes written by one call, and the
formatter state afterwards. The separator is written before every record
except the first, and only when the formatter was not constructed for
singleton input. `marshal` is the external `json.Marshal`. -/
def JSONFormatter.writeRecord (marshal : RecordMap → String) (f : JSONFormatter)
    (record : RecordMap) : String × JSONFormatter :=
  ((if !f.isSingletonInput && !f.isFirst then ",\n" else "") ++ marshal record,
   { f with isFirst := false })

/-- `JSONFormatter.WriteFooter`. -/
def JSONFormatter.writeFooter (f : JSONFormatter) : String :=
  if f.isSingletonInput then "" else "\n]"

/-- The bytes of the successive `WriteRecord` calls of a `JSONFormatter`
run over a record sequence, one list entry per call. -/
def runJSONWriteRecords (marshal : RecordMap → String) :
    JSONFormatter → List RecordMap → List String
  | _, [] => []
  | f, r :: rest =>
    (JSONFormatter.writeRecord marshal f r).1 ::
      runJSONWriteRecords marshal (JSONFormatter.writeRecord marshal f r).2 rest

/-- The state of `JSONPFormatter`, the pretty-printing array formatter. -/
structure JSONPFormatter where
  isFirst : Bool
  isSingletonInput : Bool

/-- `NewJSONPFormatter`. -/
def JSONPFormatter.new (isSingletonInput : Bool) : JSONPFormatter :=
  ⟨true, isSingletonInput⟩

/-- `JSONPFormatter.WriteHeader`. -/
def JSONPFormatter.writeHeader (f : JSONPFormatter) : String :=
  if f.isSingletonInput then "" else "["

/-- `JSONPFormatter.WriteRecord`, with `marshalIndent` the external
`json.MarshalIndent`. -/
def JSONPFormatter.writeRecord (marshalIndent : RecordMap → String)
    (f : JSONPFormatter) (record : RecordMap) : String × JSONPFormatter :=
  ((if !f.isSingletonInput && !f.isFirst then "," else "") ++ marshalIndent record,
   { f with isFirst := false })

/-- `JSONPFormatter.WriteFooter`. -/
def JSONPFormatter.writeFooter (f : JSONPFormatter) : String :=
  if f.isSingletonInput then "" else "]"

/-- The bytes of the successive `WriteRecord` calls of a `JSONPFormatter`
run. -/
def runJSONPWriteRecords (marshalIndent : RecordMap → String) :
    JSONPFormatter → List RecordMap → List String
  | _, [] => []
  | f, r :: rest =>
    (JSONPFormatter.writeRecord marshalIndent f r).1 ::
      runJSONPWriteRecords marshalIndent (JSONPFormatter.writeRecord marshalIndent f r).2 rest

/-- `JSONLFormatter.WriteRecord`: the compact serialization followed by a
newline; the JSONL formatter holds no state besides the writer, and its
header and footer write nothing. -/
def jsonlWriteRecord (marshal : RecordMap → String) (record : RecordMap) : String :=
  marshal record ++ "\n"

/-- `YAMLFormatter.WriteHeader`: nothing. The YAML formatter holds no state
besides the writer and is not given the input shape at construction. -/
def yamlWriteHeader : String := ""

/-- `YAMLFormatter.WriteRecord`: the document separator line, then the YAML
serialization of the record; `yamlMarshal` is the external `yaml.Marshal`.
The separator is prepended before every record, the first included. -/
def yamlWriteRecord (yamlMarshal : RecordMap → String) (record : RecordMap) : String :=
  "---\n" ++ yamlMarshal record

/-- `YAMLFormatter.WriteFooter`: nothing. -/
def yamlWriteFooter : String := ""

/-- The whole byte stream of a YAML formatter run: header, every record
write in order, footer. -/
def yamlRun (yamlMarshal : RecordMap → String) (records : List RecordMap) : String :=
  yamlWriteHeader ++ String.join (records.map (yamlWriteRecord yamlMarshal)) ++
    yamlWriteFooter

/-- `CSVFormatter.WriteRecord`: one cell per header, the raw string for
string values, the JSON encoding for other present values (empty on a
marshal error), empty for absent keys. `marshalValue` is the external
`json.Marshal` on one value, `none` modelling its error return. -/
def csvWriteRecord (marshalValue : Value → Option String)
    (headerOrder : List String) (rec : RecordMap) : List String :=
  headerOrder.map (fun h =>
    match lookupKey rec h with
    | some (.str s) => s
    | some v => (marshalValue v).getD ""
    | none => "")

/-- The output-format names, the dispatch domain of `NewFormatter`. -/
inductive FormatterKind where
  | json | jsonl | jsonp | yaml | csv

/-- The bytes of the successive `WriteRecord` calls of the formatter
`NewFormatter` builds for the given format name, singleton flag and
configuration, over a record sequence. The marshal parameters and the CSV
row encoder (csv.Writer.Write) are the external encoders. Only the `json` and `jsonp` formatters receive the
singleton flag at construction; `jsonl` and `yaml` take only the writer,
and `csv` takes the writer and the configuration. -/
def recordWrites (kind : FormatterKind) (marshal marshalIndent yamlMarshal : RecordMap → String)
    (marshalValue : Value → Option String) (csvEncodeRow : List String → String)
    (config : Config)
    (isSingletonInput : Bool) (records : List RecordMap) : List String :=
  match kind with
  | .json => runJSONWriteRecords marshal (JSONFormatter.new isSingletonInput) records
  | .jsonp => runJSONPWriteRecords marshalIndent (JSONPFormatter.new isSingletonInput) records
  | .jsonl => records.map (jsonlWriteRecord marshal)
  | .yaml => records.map (yamlWriteRecord yamlMarshal)
  | .csv => records.map (fun r =>
      csvEncodeRow (csvWriteRecord marshalValue (computeHeaderOrder config) r))

/-- `InputType` from the source; the zero value, received from a closed
channel, is `singletonInput`. -/
inductive InputType where
  | singletonInput | arrayInput | streamInput

/-- The observable outcome of one input-reader goroutine: what was sent on
the input-type channel (`none` when the channel was closed without a send),
the processed records sent on the record channel in order, and whether the
reader hit `log.Fatalf`. -/
structure ReadResult where
  inputType : Option InputType
  records : List RecordMap
  fatal : Bool

/-- The decision tree of the external `json.Unmarshal` calls in the
`"json"` branch of `readJSONInput`: empty input, input that decodes as an
array of records, input that fails as an array but decodes as one record,
and input that fails as both. -/
inductive JSONInput where
  | empty
  | arrayOf (records : List RecordMap)
  | objectOf (record : RecordMap)
  | malformed

/-- The `"json"` branch of `readJSONInput`: empty input returns before
sending an input type; an array sends `arrayInput` and processes each
element; a single object sends `singletonInput` and processes it; anything
else is fatal. Records dropped by `processInput` are not sent. -/
def readJSONInput (re : RegexEngine) (config : Config) : JSONInput → ReadResult
  | .empty => ⟨none, [], false⟩
  | .arrayOf records =>
    ⟨some .arrayInput, records.filterMap (fun r => processInput re r config), false⟩
  | .objectOf record =>
    ⟨some .singletonInput, (processInput re record config).toList, false⟩
  | .malformed => ⟨none, [], true⟩

/-- One `yaml.Decoder.Decode` outcome inside `readYAMLInput` that is not
end of input: a decoded document, or a decode error. End of input is the
end of the list. -/
inductive YAMLDocResult where
  | ok (v : Value)
  | err

/-- `processDecodedYAML` from the source: process a decoded stream document
when it is a mapping, skip (log) it otherwise. -/
def processDecodedYAML (re : RegexEngine) (config : Config) (doc : Value) :
    Option RecordMap :=
  match doc with
  | .obj rec => processInput re rec config
  | _ => none

/-- `readYAMLInput` from the source: end of input at the first document
means zero records and no input-type send; a decode error on the first or
second document is fatal; exactly one document is classified as
`arrayInput` when it is a sequence (processing its mapping elements,
logging the rest) and as `singletonInput` otherwise (processing it when it
is a mapping); two or more documents mean `streamInput`, processing every
mapping document and skipping decode errors and non-mapping documents. -/
def readYAMLInput (re : RegexEngine) (config : Config) :
    List YAMLDocResult → ReadResult
  | [] => ⟨none, [], false⟩
  | .err :: _ => ⟨none, [], true⟩
  | [.ok firstObj] =>
    match firstObj with
    | .arr items =>
      ⟨some .arrayInput,
       items.filterMap (fun item =>
         match item with
         | .obj rec => processInput re rec config
         | _ => none), false⟩
    | .obj rec => ⟨some .singletonInput, (processInput re rec config).toList, false⟩
    | _ => ⟨some .singletonInput, [], false⟩
  | .ok _ :: .err :: _ => ⟨none, [], true⟩
  | .ok firstObj :: .ok secondObj :: rest =>
    ⟨some .streamInput,
     (processDecodedYAML re config firstObj).toList ++
       (processDecodedYAML re config secondObj).toList ++
       rest.filterMap (fun d =>
         match d with
         | .ok doc => processDecodedYAML re config doc
         | .err => none), false⟩

/-- The header-row read outcome of `readCSVInput`: end of input, a read
error, or the header columns. -/
inductive CSVHeaderResult where
  | eof
  | err
  | ok (headers : List String)

/-- One data-row read outcome of `readCSVInput`. -/
inductive CSVRowResult where
  | err
  | ok (row : List String)

/-- The row-to-record conversion of `readCSVInput`: cell `i` is stored
under header `i`; extra cells beyond the headers are ignored, and rows
shorter than the header leave the remaining keys absent. -/
def csvRowToRecord (headers row : List String) : RecordMap :=
  (headers.zip row).foldl (fun m p => setKey m p.1 (Value.str p.2)) []

/-- `readCSVInput` from the source: `arrayInput` is sent before the header
row is read; end of input at the header row returns with zero records and
no fatal error; any other header read error is fatal; each data row is
converted and processed, and row read errors are logged and skipped. -/
def readCSVInput (re : RegexEngine) (config : Config)
    (header : CSVHeaderResult) (rows : List CSVRowResult) : ReadResult :=
  match header with
  | .eof => ⟨some .arrayInput, [], false⟩
  | .err => ⟨some .arrayInput, [], true⟩
  | .ok headers =>
    ⟨some .arrayInput,
     rows.filterMap (fun rr =>
       match rr with
       | .err => none
       | .ok row => processInput re (csvRowToRecord headers row) config), false⟩

/-- The input type the main routine acts on: the channel value when one was
sent, and the zero value `singletonInput` when the reader closed the
channel without sending. -/
def effectiveInputType (r : ReadResult) : InputType :=
  r.inputType.getD InputType.singletonInput

/-- A concrete engine on which every pattern is invalid; used to
instantiate theorems at concrete inputs that never reach the engine. -/
def reNone : RegexEngine := ⟨fun _ => none⟩

/-- A concrete engine on which every pattern compiles, never matches, and
finds no submatches. -/
def reFalse : RegexEngine := ⟨fun _ => some ⟨fun _ => false, fun _ => []⟩⟩

/-- A concrete engine on which every pattern compiles and every search of
any string finds the whole match "abc" with one capture group "1". -/
def reHit : RegexEngine := ⟨fun _ => some ⟨fun _ => true, fun _ => ["abc", "1"]⟩⟩

/-- A concrete configuration with no mappings and no rules. -/
def cfgEmpty : Config := ⟨"all", [], []⟩

/-- Sanity check mirroring the path-splitting corner cases of Go
`strings.Split`. -/
theorem splitDot_checks : splitDot "" = [""] ∧ splitDot "a.b" = ["a", "b"] := by
  exact ⟨by decide, by decide⟩

/-- Sanity check mirroring the string-path case of `Test_applyMapping`. -/
theorem applyMapping_path_check :
    applyMapping reNone "k" [("a", .str "b")] [] (.str "a") = [("k", .str "b")] := by
  simp [applyMapping, setKey, getValueByPath, splitDot, splitDotAux, descend, lookupAny, lookupKey]

/-- Sanity check mirroring the pass-through case of `Test_processInput`. -/
theorem processInput_passthrough_check :
    processInput reNone [("a", .str "b")] cfgEmpty = some [("a", .str "b")] := rfl
theorem descend_nil (v : Value) : descend v [] = v := by cases v <;> rfl

theorem getValueByPath_empty (record : RecordMap) :
    getValueByPath record "" = lookupAny record "" := by
  show descend (lookupAny record "") [] = lookupAny record ""
  exact descend_nil _
/-- Sanity check: the regex-extract branch with an empty `value` template
writes nothing, evaluated concretely. -/
theorem applyMapping_empty_template_check :
    applyMapping reHit "k" [("t", .str "abc")] []
      (.obj [("src", .str "t"), ("regex", .str "p"), ("value", .str "")]) = [] := by
  simp [applyMapping, hasKeys3, strval, lookupKey, lookupAny, reHit, getValueByPath,
    splitDot, splitDotAux, descend]

/-- The matched flag of the rule-scanning loop is exactly: some rule of the
list matches the record. -/
theorem applySpecific_snd (re : RegexEngine) (record : RecordMap)
    (rules : List SpecificOutputRule) (out : RecordMap) :
    (applySpecific re record rules out).2
      = rules.any (fun r => r.check re record) := by
  induction rules generalizing out with
  | nil => rfl
  | cons rule rest ih =>
    cases hc : SpecificOutputRule.check re rule record with
    | true => simp [applySpecific, hc]
    | false => simp [applySpecific, hc, ih]

/-- When every rule before `rule` fails and `rule` matches, the scanning
loop stops at `rule`: it merges exactly the output mappings of `rule` into
the accumulated record and reports a match, independently of all later
rules. -/
theorem applySpecific_found (re : RegexEngine) (record : RecordMap)
    (pre : List SpecificOutputRule) (rule : SpecificOutputRule)
    (rest : List SpecificOutputRule) (out : RecordMap)
    (hpre : ∀ r ∈ pre, SpecificOutputRule.check re r record = false)
    (hrule : SpecificOutputRule.check re rule record = true) :
    applySpecific re record (pre ++ rule :: rest) out =
      (mapsCopy out (applyFieldMappings re record (convertFieldMappings rule.output)),
       true) := by
  induction pre generalizing out with
  | nil => simp [applySpecific, hrule]
  | cons p ps ih =>
    have hp : SpecificOutputRule.check re p record = false := hpre p (by simp)
    have hps : ∀ r ∈ ps, SpecificOutputRule.check re r record = false :=
      fun r hr => hpre r (by simp [hr])
    simpa [applySpecific, hp] using ih out hps

/-- The descent result is null exactly when the absence predicate holds. -/
theorem descend_null_iff :
    ∀ (parts : List String) (v : Value),
      (descend v parts = Value.null) ↔ pathAbsent v parts = true := by
  intro parts
  induction parts with
  | nil => intro v; cases v <;> simp [descend, pathAbsent, isNullV]
  | cons p rest ih =>
    intro v
    cases v <;> simp [descend, pathAbsent, ih]

/-- A pattern starting with a dollar sign never occurs in a string without
a dollar sign, so the replacement loop returns the string unchanged. -/
theorem replChars_skip (pt repl : List Char) :
    ∀ (fuel : Nat) (s : List Char), ('$' ∈ s → False) →
      replChars ('$' :: pt) repl fuel s = s := by
  intro fuel
  induction fuel with
  | zero =>
    intro s _
    cases s with
    | nil => simp [replChars]
    | cons c rest => simp [replChars]
  | succ n ih =>
    intro s hs
    cases s with
    | nil => simp [replChars]
    | cons c rest =>
      have hc : ('$' == c) = false := by
        rw [beq_eq_false_iff_ne]
        intro h
        exact hs (h ▸ List.mem_cons_self _ _)
      have hnil : (('$' :: pt : List Char) == ([] : List Char)) = false := rfl
      have h2 := ih rest (fun h => hs (List.mem_cons_of_mem _ h))
      simp [replChars, hnil, hc, leadsWith, h2]

/-- `strings.ReplaceAll` with a pattern starting with a dollar sign leaves
a dollar-free string unchanged. -/
theorem replaceAll_skip (s pat repl : String) (t : List Char)
    (hpat : pat.data = '$' :: t) (hs : '$' ∈ s.data → False) :
    replaceAll s pat repl = s := by
  unfold replaceAll
  rw [hpat, replChars_skip t repl.data s.data.length s.data hs]

/-- The substitution fold over any block of capture groups leaves a dollar-
free string unchanged. -/
theorem substGroups_fold_skip :
    ∀ (l : List String) (n : Nat) (s : String), ('$' ∈ s.data → False) →
      (List.enumFrom n l).foldl
        (fun result p => replaceAll result ("$" ++ toString (p.1 + 1)) p.2) s = s := by
  intro l
  induction l with
  | nil => intro n s _; rfl
  | cons g rest ih =>
    intro n s hs
    have hd : ("$" ++ toString (n + 1)).data = '$' :: (toString (n + 1)).data := by
      rw [String.data_append]; rfl
    have hstep : replaceAll s ("$" ++ toString (n + 1)) g = s :=
      replaceAll_skip s _ g _ hd hs
    show (List.enumFrom (n + 1) rest).foldl _ (replaceAll s ("$" ++ toString (n + 1)) g) = s
    rw [hstep]
    exact ih (n + 1) s hs
/-- Sanity checks mirroring the `Test_getValueByPath` table of the Go
tests: flat key, descent through a non-mapping, and missing key. -/
theorem getValueByPath_checks :
    getValueByPath [("foo", .str "bar")] "foo" = .str "bar"
    ∧ getValueByPath [("foo", .str "bar")] "foo.x" = .null
    ∧ getValueByPath [("foo", .str "bar")] "nope" = .null :=
  ⟨rfl, rfl, rfl⟩

/-- Sanity check mirroring the regex-substitution round trip of the spec:
group text 123 into the template `number=$1`. -/
theorem substGroups_round_trip_check :
    substGroups ["123"] "number=$1" = "number=123" := by decide

/-- After the first record, every further `WriteRecord` of the plain JSON
formatter writes the separator exactly when the formatter is not in
singleton mode. -/
theorem runJSON_after_first (marshal : RecordMap → String) (tag : Bool) :
    ∀ records : List RecordMap,
      runJSONWriteRecords marshal ⟨false, tag⟩ records
        = records.map (fun r => (if tag then "" else ",\n") ++ marshal r) := by
  intro records
  induction records with
  | nil => rfl
  | cons r rest ih =>
    cases tag <;>
      simp [runJSONWriteRecords, JSONFormatter.writeRecord, ih]

/-- The per-call bytes of a plain JSON formatter run: the first record is
written bare, every later one behind the separator unless in singleton
mode. -/
theorem runJSON_char (marshal : RecordMap → String) (tag : Bool)
    (records : List RecordMap) :
    runJSONWriteRecords marshal (JSONFormatter.new tag) records
      = (match records with
         | [] => []
         | r :: rest =>
           marshal r :: rest.map (fun x => (if tag then "" else ",\n") ++ marshal x)) := by
  cases records with
  | nil => rfl
  | cons r rest =>
    cases tag <;>
      simp [runJSONWriteRecords, JSONFormatter.writeRecord, JSONFormatter.new,
        runJSON_after_first]

/-- After the first record, every further `WriteRecord` of the pretty JSON
formatter writes the separator exactly when the formatter is not in
singleton mode. -/
theorem runJSONP_after_first (marshalIndent : RecordMap → String) (tag : Bool) :
    ∀ records : List RecordMap,
      runJSONPWriteRecords marshalIndent ⟨false, tag⟩ records
        = records.map (fun r => (if tag then "" else ",") ++ marshalIndent r) := by
  intro records
  induction records with
  | nil => rfl
  | cons r rest ih =>
    cases tag <;>
      simp [runJSONPWriteRecords, JSONPFormatter.writeRecord, ih]

/-- The per-call bytes of a pretty JSON formatter run. -/
theorem runJSONP_char (marshalIndent : RecordMap → String) (tag : Bool)
    (records : List RecordMap) :
    runJSONPWriteRecords marshalIndent (JSONPFormatter.new tag) records
      = (match records with
         | [] => []
         | r :: rest =>
           marshalIndent r ::
             rest.map (fun x => (if tag then "" else ",") ++ marshalIndent x)) := by
  cases records with
  | nil => rfl
  | cons r rest =>
    cases tag <;>
      simp [runJSONPWriteRecords, JSONPFormatter.writeRecord, JSONPFormatter.new,
        runJSONP_after_first]

/-- Claim C1, counterexample. With the singleton tag in effect (the YAML
formatter is constructed without any tag), writing one record does NOT
produce a plain document: the written bytes are the record serialization
preceded by the `---` separator line, so the full run output differs from
the plain document the claim requires. -/
theorem yamlFormatter_singleton_separator_cex :
    yamlRun (fun _ => "a: 1\n") [[]] = "---\na: 1\n" ∧
      yamlRun (fun _ => "a: 1\n") [[]] ≠ "a: 1\n" := by
  exact ⟨rfl, by decide⟩

/-- Claim C1, amended: the YAML output formatter ignores the ShapeTag
entirely (its constructor is not even given one); for every tag, its header
and footer write nothing, no record is buffered, and every record,
including the first and the singleton case, is written as its own document
preceded by a `---` separator line. -/
theorem yamlFormatter_tag_independent (yamlMarshal : RecordMap → String)
    (records : List RecordMap) :
    yamlWriteHeader = "" ∧ yamlWriteFooter = "" ∧
      yamlRun yamlMarshal records
        = String.join (records.map (fun r => "---\n" ++ yamlMarshal r)) := by
  refine ⟨rfl, rfl, ?_⟩
  show "" ++ String.join (records.map (yamlWriteRecord yamlMarshal)) ++ "" = _
  rw [String.append_empty]
  rfl

/-- Claim C2, counterexample. For the plain JSON formatter over the same
two-record sequence, the second WriteRecord call writes different bytes
under the singleton tag (no separator) and the non-singleton tag (a
leading separator): WriteRecord does depend on the ShapeTag. -/
theorem writeRecord_tag_dependence_cex :
    recordWrites FormatterKind.json (fun _ => "R") (fun _ => "R") (fun _ => "R")
        (fun _ => none) (fun _ => "") cfgEmpty true [[], []]
      ≠ recordWrites FormatterKind.json (fun _ => "R") (fun _ => "R") (fun _ => "R")
        (fun _ => none) (fun _ => "") cfgEmpty false [[], []] := by
  decide

/-- Claim C2, amended: the JSONL, YAML and CSV formatters write
tag-independent record bytes (their WriteRecord is never given the tag),
and for the plain and pretty JSON formatters the first WriteRecord call is
tag-independent, but every later call is prefixed with the separator
exactly when the tag is not Singleton — so for those two formatters
WriteRecord does depend on the ShapeTag, beyond the header and footer. -/
theorem writeRecord_outputs_characterization
    (marshal marshalIndent yamlMarshal : RecordMap → String)
    (marshalValue : Value → Option String) (csvEncodeRow : List String → String)
    (config : Config) (records : List RecordMap) :
    (∀ kind : FormatterKind,
       kind = FormatterKind.jsonl ∨ kind = FormatterKind.yaml ∨ kind = FormatterKind.csv →
       recordWrites kind marshal marshalIndent yamlMarshal marshalValue csvEncodeRow
           config true records
         = recordWrites kind marshal marshalIndent yamlMarshal marshalValue csvEncodeRow
           config false records)
    ∧ (∀ tag : Bool,
        recordWrites FormatterKind.json marshal marshalIndent yamlMarshal marshalValue
            csvEncodeRow config tag records
          = (match records with
             | [] => []
             | r :: rest =>
               marshal r :: rest.map (fun x => (if tag then "" else ",\n") ++ marshal x)))
    ∧ (∀ tag : Bool,
        recordWrites FormatterKind.jsonp marshal marshalIndent yamlMarshal marshalValue
            csvEncodeRow config tag records
          = (match records with
             | [] => []
             | r :: rest =>
               marshalIndent r ::
                 rest.map (fun x => (if tag then "" else ",") ++ marshalIndent x))) := by
  refine ⟨?_, ?_, ?_⟩
  · intro kind hk
    rcases hk with h | h | h <;> subst h <;> rfl
  · intro tag
    exact runJSON_char marshal tag records
  · intro tag
    exact runJSONP_char marshalIndent tag records

/-- Claim C2, witness for the amended theorem: the YAML formatter writes
the same record bytes under both tags for a concrete one-record run. -/
theorem writeRecord_outputs_characterization_witness :
    recordWrites FormatterKind.yaml (fun _ => "R") (fun _ => "R") (fun _ => "R")
        (fun _ => none) (fun _ => "") cfgEmpty true [[]]
      = recordWrites FormatterKind.yaml (fun _ => "R") (fun _ => "R") (fun _ => "R")
        (fun _ => none) (fun _ => "") cfgEmpty false [[]] :=
  (writeRecord_outputs_characterization (fun _ => "R") (fun _ => "R") (fun _ => "R")
      (fun _ => none) (fun _ => "") cfgEmpty [[]]).1 FormatterKind.yaml
    (Or.inr (Or.inl rfl))

/-- Claim C3, counterexample: a rule whose `and` list is empty and whose
top-level condition is absent does NOT match every record. It fails on a
record where its field path resolves to nothing, and on one where it
resolves to a non-string value, because Check first requires the field to
resolve to a string. -/
theorem empty_rule_nonstring_field_cex :
    SpecificOutputRule.check reNone ⟨"f", none, none, [], []⟩ [] = false ∧
      SpecificOutputRule.check reNone ⟨"f", none, none, [], []⟩
        [("f", Value.num 3)] = false :=
  ⟨rfl, rfl⟩

/-- Claim C3, amended: a rule whose `and` list is empty and whose top-level
condition is absent matches exactly the records whose field path resolves
to a string; records where the path resolves to a non-string value or to
nothing do not match. -/
theorem empty_rule_matches_iff_string_field (re : RegexEngine) (record : RecordMap)
    (rule : SpecificOutputRule) (heq : rule.eq = none) (hm : rule.matchesRe = none)
    (ha : rule.and = []) :
    SpecificOutputRule.check re rule record = true ↔
      ∃ s, getValueByPath record rule.field = Value.str s := by
  unfold SpecificOutputRule.check
  cases hv : getValueByPath record rule.field <;> simp [heq, hm, ha, hv]

/-- Claim C3, witness: the amended rule at a record whose field resolves to
a string. -/
theorem empty_rule_matches_iff_string_field_witness :
    SpecificOutputRule.check reNone ⟨"f", none, none, [], []⟩
      [("f", Value.str "x")] = true :=
  (empty_rule_matches_iff_string_field reNone [("f", Value.str "x")]
      ⟨"f", none, none, [], []⟩ rfl rfl rfl).mpr ⟨"x", rfl⟩

/-- Claim C7, counterexample: resolving the empty path does not return
absent for every record. On a record with a binding for the empty key, the
empty path resolves to that binding, because splitting the empty path
yields the single empty segment, which is then looked up. -/
theorem empty_path_not_absent_cex :
    getValueByPath [("", Value.str "x")] "" = Value.str "x" ∧
      getValueByPath [("", Value.str "x")] "" ≠ Value.null := by
  refine ⟨rfl, ?_⟩
  intro h
  exact Value.noConfusion h

/-- Claim C7, amended: the resolver is a total function of the record and
path (side effects do not exist in this model); it returns the
distinguishable null exactly when, with the path split on dots, an
intermediate value is not a mapping while segments remain, or the value
reached at the end of the segments is null — which covers every missing
key, since looking up a missing key yields null. The empty path splits to
the single empty segment, so it resolves to the record's value at the
empty key rather than being unconditionally absent. -/
theorem getValueByPath_null_characterization :
    (∀ (record : RecordMap) (path : String),
       (getValueByPath record path = Value.null ↔
         pathAbsent (Value.obj record) (splitDot path) = true))
    ∧ (∀ record : RecordMap, getValueByPath record "" = lookupAny record "") :=
  ⟨fun record path => descend_null_iff (splitDot path) (Value.obj record),
   getValueByPath_empty⟩

/-- Claim C8, counterexample: for a rule's own top-level condition with
both `eq` and `matches` present, `eq` holding is not the result: `matches`
is evaluated as well, and the rule fails when the regex search fails, even
though the same condition as an `and`-list entry is true (there `eq` takes
precedence and `matches` is ignored). -/
theorem toplevel_eq_and_matches_both_checked_cex :
    SpecificOutputRule.check reFalse ⟨"f", some "abc", some "p", [], []⟩
        [("f", Value.str "abc")] = false ∧
      AndCondition.check reFalse ⟨"f", some "abc", some "p"⟩
        [("f", Value.str "abc")] = true :=
  ⟨rfl, rfl⟩

/-- Claim C8, amended: for an `and`-list condition, at most one of `eq` and
`matches` is evaluated — with `eq` present the result is exactly the
string-equality test, `matches` ignored — and with neither present the
condition is false. For a rule's own top-level condition, `eq` and
`matches` are BOTH evaluated conjunctively when both are present, and with
neither present the top-level condition passes vacuously: the rule then
matches exactly when the field resolves to a string and every condition of
its `and` list — of any length — holds. -/
theorem condition_eval_semantics :
    (∀ (re : RegexEngine) (record : RecordMap) (f e : String) (m : Option String),
       AndCondition.check re ⟨f, some e, m⟩ record
         = (match getValueByPath record f with
            | .str s => s == e
            | _ => false))
    ∧ (∀ (re : RegexEngine) (record : RecordMap) (f : String),
        AndCondition.check re ⟨f, none, none⟩ record = false)
    ∧ (∀ (re : RegexEngine) (record : RecordMap) (f e m : String)
         (andConds : List AndCondition) (out : List (List (String × Value))),
        SpecificOutputRule.check re ⟨f, some e, some m, andConds, out⟩ record
          = (match getValueByPath record f with
             | .str s =>
               (s == e) &&
               (match re.compile m with
                | some cre => cre.matchString s
                | none => false) &&
               andConds.all (fun ac => ac.check re record)
             | _ => false))
    ∧ (∀ (re : RegexEngine) (record : RecordMap) (f : String)
         (andConds : List AndCondition) (out : List (List (String × Value))),
        SpecificOutputRule.check re ⟨f, none, none, andConds, out⟩ record
          = (match getValueByPath record f with
             | .str _ => andConds.all (fun ac => ac.check re record)
             | _ => false)) := by
  refine ⟨?_, ?_, ?_, ?_⟩
  · intro re record f e m
    unfold AndCondition.check
    cases getValueByPath record f <;> rfl
  · intro re record f
    unfold AndCondition.check
    cases getValueByPath record f <;> rfl
  · intro re record f e m andConds out
    unfold SpecificOutputRule.check
    cases getValueByPath record f <;> rfl
  · intro re record f andConds out
    unfold SpecificOutputRule.check
    cases getValueByPath record f <;> rfl

/-- No rule of a list matches exactly when the any-fold over the list is
false. -/
theorem any_check_eq_false_iff (re : RegexEngine) (record : RecordMap)
    (rules : List SpecificOutputRule) :
    (rules.any (fun r => r.check re record) = false)
      ↔ ∀ rule ∈ rules, SpecificOutputRule.check re rule record = false := by
  simp [List.any_eq_true]

/-- Full characterization of `processInput`: the drop decision tests the
match policy and whether any rule matches, then the pass-through decision
tests whether the built output has keys. -/
theorem processInput_eq (re : RegexEngine) (record : RecordMap) (config : Config) :
    processInput re record config =
      if config.matchRule == "drop-no-match"
          && !(config.specificOutputs.any (fun r => r.check re record)) then none
      else if (buildOutput re record config).isEmpty then some record
      else some (buildOutput re record config) := by
  simp only [processInput, buildOutput]
  rw [applySpecific_snd]
  cases h : (applySpecific re record config.specificOutputs
      (applyFieldMappings re record (convertFieldMappings config.commonOutput))).1 with
  | nil => simp [h]
  | cons a l => simp [h]

/-- Claim C4: `processInput` has exactly three mutually exclusive outcomes.
It returns the drop signal (`none`, nothing emitted downstream) if and only
if the match policy is drop-no-match and no rule of specificOutputs matches
the record; otherwise it returns the original record verbatim when the
built output has zero keys, and the built output itself when it has keys. -/
theorem processInput_three_outcomes (re : RegexEngine) (record : RecordMap)
    (config : Config) :
    (processInput re record config = none ↔
       (config.matchRule = "drop-no-match" ∧
         ∀ rule ∈ config.specificOutputs,
           SpecificOutputRule.check re rule record = false))
    ∧ (processInput re record config ≠ none →
        processInput re record config
          = some (if (buildOutput re record config).isEmpty then record
                  else buildOutput re record config)) := by
  have hc := processInput_eq re record config
  constructor
  · have h0 : processInput re record config = none ↔
        (config.matchRule == "drop-no-match"
          && !(config.specificOutputs.any (fun r => r.check re record))) = true := by
      rw [hc]
      cases hC : (config.matchRule == "drop-no-match"
          && !(config.specificOutputs.any (fun r => r.check re record))) with
      | true => simp
      | false => cases he : (buildOutput re record config).isEmpty <;> simp
    have h1 : (config.matchRule == "drop-no-match"
        && !(config.specificOutputs.any (fun r => r.check re record))) = true ↔
        (config.matchRule = "drop-no-match" ∧
          ∀ rule ∈ config.specificOutputs,
            SpecificOutputRule.check re rule record = false) := by
      rw [Bool.and_eq_true, beq_iff_eq, Bool.not_eq_true']
      exact and_congr Iff.rfl (any_check_eq_false_iff re record config.specificOutputs)
    exact h0.trans h1
  · intro hne
    rw [hc] at hne
    rw [hc]
    cases hC : (config.matchRule == "drop-no-match"
        && !(config.specificOutputs.any (fun r => r.check re record))) with
    | true =>
      rw [hC] at hne
      simp at hne
    | false =>
      cases hb : (buildOutput re record config).isEmpty <;> simp [hb]

/-- Claim C4, witness: with no mappings and no rules under the all policy,
a record is not dropped and, the built output being empty, is passed
through verbatim. -/
theorem processInput_three_outcomes_witness :
    processInput reNone [("a", Value.str "b")] cfgEmpty
      = some [("a", Value.str "b")] :=
  (processInput_three_outcomes reNone [("a", Value.str "b")] cfgEmpty).2
    (fun h => Option.noConfusion h)

/-- Claim C5: only the first matching rule in declaration order
contributes. When every rule before `rule` fails and `rule` matches, the
built output merges exactly the output mappings of `rule` into the common
output, overwriting colliding keys, and equals the built output of the
configuration with every later rule removed — later rules are neither
evaluated nor able to contribute. -/
theorem first_match_wins (re : RegexEngine) (record : RecordMap) (config : Config)
    (pre : List SpecificOutputRule) (rule : SpecificOutputRule)
    (rest : List SpecificOutputRule)
    (hsplit : config.specificOutputs = pre ++ rule :: rest)
    (hpre : ∀ r ∈ pre, SpecificOutputRule.check re r record = false)
    (hrule : SpecificOutputRule.check re rule record = true) :
    buildOutput re record config
      = mapsCopy (applyFieldMappings re record (convertFieldMappings config.commonOutput))
          (applyFieldMappings re record (convertFieldMappings rule.output))
    ∧ buildOutput re record config
      = buildOutput re record { config with specificOutputs := pre ++ [rule] } := by
  have h1 := applySpecific_found re record pre rule rest
    (applyFieldMappings re record (convertFieldMappings config.commonOutput)) hpre hrule
  have h2 := applySpecific_found re record pre rule []
    (applyFieldMappings re record (convertFieldMappings config.commonOutput)) hpre hrule
  constructor
  · unfold buildOutput
    rw [hsplit, h1]
  · show buildOutput re record config
      = (applySpecific re record (pre ++ rule :: [])
          (applyFieldMappings re record (convertFieldMappings config.commonOutput))).1
    unfold buildOutput
    rw [hsplit, h1, h2]

/-- The rules and configuration for the first-match-wins witness: two rules
that both match any record whose field `f` is the string `v`. -/
def ruleA : SpecificOutputRule := ⟨"f", some "v", none, [], [[("k1", Value.str "f")]]⟩

/-- The second, shadowed rule for the first-match-wins witness. -/
def ruleB : SpecificOutputRule := ⟨"f", some "v", none, [], [[("k2", Value.str "f")]]⟩

/-- The two-rule configuration for the first-match-wins witness. -/
def cfgAB : Config := ⟨"all", [], [ruleA, ruleB]⟩

/-- Claim C5, witness: both rules match the record, and the built output
carries the first rule's key `k1` only — nothing from the shadowed rule's
key `k2`. -/
theorem first_match_wins_witness :
    buildOutput reNone [("f", Value.str "v")] cfgAB = [("k1", Value.str "v")] := by
  have h := (first_match_wins reNone [("f", Value.str "v")] cfgAB [] ruleA [ruleB] rfl
      (fun r hr => absurd hr (List.not_mem_nil r)) (by decide)).1
  rw [h]
  simp [mapsCopy, applyFieldMappings, convertFieldMappings, applyMapping, setKey,
    getValueByPath, splitDot, splitDotAux, descend, lookupAny, lookupKey, ruleA]

/-- Claim C9: a regex-extract field spec whose `value` template is the
empty string writes no output key at all, whatever the engine does: for an
invalid pattern, a non-string source, a failed match, and equally for a
successful match, the output record is returned unchanged. -/
theorem empty_value_template_writes_nothing (re : RegexEngine) (name : String)
    (inRec out : RecordMap) (entries : List (String × Value))
    (hk : hasKeys3 entries = true) (hv : strval entries "value" = "") :
    applyMapping re name inRec out (Value.obj entries) = out := by
  simp only [applyMapping, hk, if_true]
  cases hc : re.compile (strval entries "regex") with
  | none => rfl
  | some cre =>
    cases hs : getValueByPath inRec (strval entries "src") with
    | str srcVal =>
      cases hm : (cre.findStringSubmatch srcVal).length == 0 with
      | true => simp [hm]
      | false => simp [hm, hv]
    | null => rfl
    | num n => rfl
    | bool b => rfl
    | obj m => rfl
    | arr l => rfl

/-- Claim C9, witness: with an engine whose pattern compiles and whose
search succeeds with one capture group, and a source path resolving to a
string, the empty `value` template still writes nothing. -/
theorem empty_value_template_writes_nothing_witness :
    applyMapping reHit "k" [("t", Value.str "abc")] []
        (Value.obj [("src", Value.str "t"), ("regex", Value.str "p"),
          ("value", Value.str "")]) = [] :=
  empty_value_template_writes_nothing reHit "k" [("t", Value.str "abc")] []
    [("src", Value.str "t"), ("regex", Value.str "p"), ("value", Value.str "")]
    (by decide) (by decide)

/-- Claim C10, counterexample: a capture group with index ten CAN be
referenced. With group one capturing the text `$10` and group ten
capturing `X`, the template `$1` substitutes to `$10` at step one, which
step ten then replaces by `X` — the replacement text inserted by an
earlier group is itself subject to the later replacements. -/
theorem group_ten_referencable_cex :
    substGroups ["$10", "", "", "", "", "", "", "", "", "X"] "$1" = "X" := by
  decide

/-- Claim C10, amended: substitution is purely textual, in increasing
group-index order, each step replacing every occurrence of its
placeholder. A `$10` placeholder in the template is consumed by the `$1`
replacement, yielding group one's text followed by a literal `0` whenever
that text is dollar-free — so groups with index ten or higher cannot be
referenced from the template directly, though they can be reached through
dollar signs inserted by earlier replacements. A placeholder whose index
exceeds the number of capture groups stays as literal text, and the whole
match (`$0`) is dropped before substitution, so its text never influences
the result. -/
theorem placeholder_substitution_semantics :
    (∀ (g : String) (rest : List String), ('$' ∈ g.data → False) →
       substGroups (g :: rest) "$10" = g ++ "0")
    ∧ (∀ g : String, substGroups [g] "$2" = "$2")
    ∧ (∀ (w wAlt template : String) (groups : List String),
        substGroups ((w :: groups).drop 1) template
          = substGroups ((wAlt :: groups).drop 1) template) := by
  refine ⟨?_, ?_, ?_⟩
  · intro g rest hg
    have hpat : ("$" ++ toString (0 + 1) : String) = "$1" := rfl
    have hrep : replaceAll "$10" "$1" g = g ++ "0" := rfl
    simp only [substGroups, List.enum, List.enumFrom, List.foldl_cons]
    rw [hpat, hrep]
    apply substGroups_fold_skip
    intro hmem
    rw [String.data_append] at hmem
    rcases List.mem_append.mp hmem with h | h
    · exact hg h
    · simp at h
  · intro g
    have hpat : ("$" ++ toString (0 + 1) : String) = "$1" := rfl
    have hrep : replaceAll "$2" "$1" g = "$2" := rfl
    simp only [substGroups, List.enum, List.enumFrom, List.foldl_cons, List.foldl_nil]
    rw [hpat, hrep]
  · intro w wAlt template groups
    rfl

/-- Claim C10, witness: with a dollar-free group one, the `$10` template
substitutes to group one's text followed by a literal zero, group ten
being out of reach of the template. -/
theorem placeholder_substitution_semantics_witness :
    substGroups ["G", "H"] "$10" = "G" ++ "0" :=
  placeholder_substitution_semantics.1 "G" ["H"] (by decide)

/-- Claim C6, counterexample: empty CSV input (end of input at the header
row) is NOT a fatal error. The reader sends the Array input type before
even reading the header, and on end of input it returns gracefully with
zero records. -/
theorem empty_csv_not_fatal_cex :
    readCSVInput reNone cfgEmpty CSVHeaderResult.eof []
      = ⟨some InputType.arrayInput, [], false⟩ :=
  rfl

/-- Claim C6, amended: empty JSON input and empty YAML input produce zero
records, no fatal error, and no input-type send, so the main routine falls
back to the default Singleton tag; empty CSV input also produces zero
records without a fatal error, but under the Array tag, which is sent
unconditionally before the header is read — only a header read error other
than end of input is fatal for CSV. -/
theorem empty_input_behavior (re : RegexEngine) (config : Config) :
    readJSONInput re config JSONInput.empty = ⟨none, [], false⟩
    ∧ effectiveInputType (readJSONInput re config JSONInput.empty)
        = InputType.singletonInput
    ∧ readYAMLInput re config [] = ⟨none, [], false⟩
    ∧ effectiveInputType (readYAMLInput re config []) = InputType.singletonInput
    ∧ readCSVInput re config CSVHeaderResult.eof []
        = ⟨some InputType.arrayInput, [], false⟩
    ∧ readCSVInput re config CSVHeaderResult.err []
        = ⟨some InputType.arrayInput, [], true⟩ :=
  ⟨rfl, rfl, rfl, rfl, rfl, rfl⟩
